import Mathlib

/-!
Shallow embedding of the GPU dynamic-boosting training loop of CatBoost
(`catboost/cuda/methods/dynamic_boosting.h`) and of the oblivious-tree
leaves estimator (`catboost/cuda/methods/leaves_estimation/
oblivious_tree_leaves_estimator.h`), together with theorems settling the
specification claims about fold planning, permutation handling, cursor
invariants, snapshot resumption and error handling.

Machine `ui32` arithmetic is modelled on `Nat` with an explicit `% 2 ^ 32`
where overflow matters; `double` quantities (the fold growth rate) are
modelled over `ℚ`, with `static_cast<ui32>` of a nonnegative product
modelled as the floor.
-/

/-- `TSlice`: a half-open index range `[Left, Right)` over samples
(`catboost/cuda/cuda_lib` slice type used by `dynamic_boosting.h`). -/
structure TSlice where
  Left : Nat
  Right : Nat
deriving DecidableEq, Repr

/-- `TDynamicBoosting::TFold` (dynamic_boosting.h lines 52-55): an
(estimate, evaluate) pair of sample ranges inside one permutation. -/
structure TFold where
  EstimateSamples : TSlice
  QualityEvaluateSamples : TSlice
deriving DecidableEq, Repr

/-- Modelled from the spec: the helper `NCB::IntLog2` lives in
`catboost/libs/helpers/math_utils.h`, which is not under `src/`; upstream it
is `(ui32)ceil(log2(values))`, the ceiling of the base-2 logarithm (exact on
`ui32` inputs), i.e. `Nat.clog 2`. The spec (§4.1) derives the fold count by
repeated halving, matching this ceiling logarithm. -/
def IntLog2 (values : Nat) : Nat :=
  Nat.clog 2 values

/-- Modelled from the spec: the helper `NHelpers::CeilDivide` lives in
`catboost/cuda/utils/helpers.h`, which is not under `src/`; upstream it is
`(x + y - 1) / y`, the ceiling of the division (exact for `ui32` inputs that
do not overflow the 32-bit addition). -/
def CeilDivide (x y : Nat) : Nat :=
  (x + y - 1) / y

/-- `EBoostingType` (`catboost/libs/options`): plain vs ordered boosting. -/
inductive EBoostingType where
  | Ordered
  | Plain
deriving DecidableEq, Repr

/-- `NCB::EObjectsOrder`: declared row order of the objects data. -/
inductive EObjectsOrder where
  | Ordered
  | RandomShuffled
  | Undefined
deriving DecidableEq, Repr

/-- The fields of `NCatboostOptions::TBoostingOptions` read by
`TDynamicBoosting` (dynamic_boosting.h). -/
structure TBoostingOptions where
  BoostingType : EBoostingType
  MinFoldSize : Nat
  PermutationBlockSize : Nat
  PermutationCount : Nat
deriving DecidableEq, Repr

/-- Modelled from the spec: the `IQueriesGrouping` implementation is outside
`src/`; per spec §6 it provides group-boundary-aligned offset queries over
the row groups. A grouping is given by the list of its group sizes; the
boundaries are the prefix sums. -/
structure TSamplesGrouping where
  GroupSizes : List Nat
deriving DecidableEq, Repr

/-- Total number of samples covered by the grouping (sum of group sizes). -/
def sampleCountOf (g : TSamplesGrouping) : Nat :=
  g.GroupSizes.sum

/-- `IQueriesGrouping::GetQueryCount`: number of row groups. -/
def GetQueryCount (g : TSamplesGrouping) : Nat :=
  g.GroupSizes.length

/-- `IQueriesGrouping::GetQueryOffset`: offset of the first row of query
`i`, i.e. the `i`-th prefix sum of the group sizes (the total sample count
when `i` is past the last group). -/
def GetQueryOffset (g : TSamplesGrouping) (i : Nat) : Nat :=
  (g.GroupSizes.take i).sum

/-- Helper for `NextQueryOffsetForLine`: scan the group sizes keeping the
accumulated offset `acc`, returning the first prefix sum strictly greater
than `line` (the total when there is none). -/
def nextOffsetAux (line : Nat) : List Nat → Nat → Nat
  | [], acc => acc
  | s :: rest, acc => if line < acc + s then acc + s else nextOffsetAux line rest (acc + s)

/-- `IQueriesGrouping::NextQueryOffsetForLine`: the end offset of the group
containing `line` (rounds `line` up to the next group boundary; returns the
total sample count when `line` is at or past the end). -/
def NextQueryOffsetForLine (g : TSamplesGrouping) (line : Nat) : Nat :=
  nextOffsetAux line g.GroupSizes 0

/-- Decidable test that `b` is one of the group-offset boundaries of `g`
(a prefix sum of the group sizes, the total included). -/
def isGroupBoundary (g : TSamplesGrouping) (b : Nat) : Bool :=
  (List.range (GetQueryCount g + 1)).any (fun i => GetQueryOffset g i == b)

/-- `TDynamicBoosting::MinEstimationSize` (dynamic_boosting.h lines
154-164). -/
def MinEstimationSize (cfg : TBoostingOptions) (docCount : Nat) : Nat :=
  if docCount < 500 then 1
  else if IntLog2 (CeilDivide docCount cfg.MinFoldSize) ≥ 18 then
    CeilDivide docCount (2 ^ 18)
  else min cfg.MinFoldSize (docCount / 50)

/-- The `minEstimationSize` computed at the top of
`TDynamicBoosting::CreateFolds` (dynamic_boosting.h lines 169-176):
`MinEstimationSize` rounded up to a group boundary and, with more than one
device, raised to the offset of group `min(16 * devCount, queryCount / 2)`. -/
def computedMinEstimationSize (devCount : Nat) (cfg : TBoostingOptions)
    (g : TSamplesGrouping) (sampleCount : Nat) : Nat :=
  let m := NextQueryOffsetForLine g (MinEstimationSize cfg sampleCount)
  if 1 < devCount then
    max m (GetQueryOffset g (min (16 * devCount) (GetQueryCount g / 2)))
  else m

/-- `static_cast<ui32>(m * growthRate)` where `m` is a `ui32` and
`growthRate` a `double` (dynamic_boosting.h lines 190, 196): the cast is
applied to the product before the `Min` against `sampleCount`, and a product
of `2 ^ 32` or more wraps in the 32-bit conversion — hence the floor of the
exact rational product reduced modulo `2 ^ 32`. -/
def truncMul (m : Nat) (growthRate : ℚ) : Nat :=
  (Int.floor ((m : ℚ) * growthRate)).toNat % 2 ^ 32

/-- `folds.back().QualityEvaluateSamples.Right` as read by the `while` loop
of `CreateFolds` (the source only reads it on nonempty fold lists; the
default is immaterial). -/
def lastEvalRight (folds : List TFold) : Nat :=
  (folds.getLastD ⟨⟨0, 0⟩, ⟨0, 0⟩⟩).QualityEvaluateSamples.Right

/-- The `while` loop of `TDynamicBoosting::CreateFolds` (dynamic_boosting.h
lines 194-200), with explicit fuel: while the last fold's evaluate range
ends before `sampleCount`, append a fold whose estimate range covers
everything seen so far and whose evaluate range extends it by the growth
rate, rounded up to a group boundary. As long as the 32-bit cast of the
grown bound does not wrap, the evaluate end strictly grows every step and
`sampleCount` units of fuel suffice; with a wrap the source loop can fail
to terminate, and the fuel caps the model. -/
def createFoldsLoop (g : TSamplesGrouping) (growthRate : ℚ) (sampleCount : Nat) :
    Nat → List TFold → List TFold
  | 0, folds => folds
  | fuel + 1, folds =>
    let lastRight := lastEvalRight folds
    if lastRight < sampleCount then
      let e := NextQueryOffsetForLine g (min (truncMul lastRight growthRate) sampleCount)
      createFoldsLoop g growthRate sampleCount fuel
        (folds ++ [⟨⟨0, lastRight⟩, ⟨lastRight, e⟩⟩])
    else folds

/-- `TDynamicBoosting::CreateFolds` (dynamic_boosting.h lines 166-202):
validates the configuration (three `CB_ENSURE` checks, in source order),
then returns the single whole-range fold in plain mode or the grown fold
sequence in ordered mode. -/
def CreateFolds (devCount : Nat) (cfg : TBoostingOptions) (g : TSamplesGrouping)
    (sampleCount : Nat) (growthRate : ℚ) : Except String (List TFold) :=
  if GetQueryCount g < 4 * devCount then
    .error "Error: pool has too few groups or docs for this GPU count"
  else if computedMinEstimationSize devCount cfg g sampleCount = 0 then
    .error "Error: min learn size should be positive"
  else if growthRate ≤ 1 then
    .error "Error: grow rate should be > 1.0"
  else if cfg.BoostingType = EBoostingType.Plain then
    .ok [⟨⟨0, sampleCount⟩, ⟨0, sampleCount⟩⟩]
  else
    .ok (createFoldsLoop g growthRate sampleCount sampleCount
      [⟨⟨0, computedMinEstimationSize devCount cfg g sampleCount⟩,
        ⟨computedMinEstimationSize devCount cfg g sampleCount,
          NextQueryOffsetForLine g
            (min (truncMul (computedMinEstimationSize devCount cfg g sampleCount) growthRate)
              sampleCount)⟩⟩])

/-- The `while (suggestedBlockSize * 128 > sampleCount)` shrink loop of
`TDynamicBoosting::GetPermutationBlockSize` (dynamic_boosting.h lines
111-113); the multiplication is `ui32`, hence the explicit `% 2 ^ 32`. -/
def shrinkBlockSize (sampleCount b : Nat) : Nat :=
  if h : b * 128 % 2 ^ 32 > sampleCount then
    shrinkBlockSize sampleCount (b / 2)
  else b
termination_by b
decreasing_by
  refine Nat.div_lt_self ?_ (by norm_num)
  rcases Nat.eq_zero_or_pos b with hb | hb
  · subst hb; simp at h
  · exact hb

/-- `TDynamicBoosting::GetPermutationBlockSize` (dynamic_boosting.h lines
104-116): below 50000 samples the block size is forced to 1; a configured
size above 1 is rounded up to a power of two and halved while 128 blocks do
not fit; a configured size of 0 or 1 is returned unchanged. -/
def GetPermutationBlockSize (cfg : TBoostingOptions) (sampleCount : Nat) : Nat :=
  if sampleCount < 50000 then 1
  else if 1 < cfg.PermutationBlockSize then
    shrinkBlockSize sampleCount (2 ^ IntLog2 cfg.PermutationBlockSize)
  else cfg.PermutationBlockSize

/-- The permutation count passed by `TDynamicBoosting::CreateDataSet` to the
dataset builder (dynamic_boosting.h lines 130-134): 1 for `Ordered` objects
data, the configured count otherwise. -/
def createDataSetPermutationCount (cfg : TBoostingOptions) (order : EObjectsOrder) : Nat :=
  if order = EObjectsOrder.Ordered then 1 else cfg.PermutationCount

/-- The learn-permutation draw of `TDynamicBoosting::Fit`
(dynamic_boosting.h lines 262-265): with more than one learn permutation the
index is `Random.NextUniformL() % (learnPermutationCount - 1)`, else 0.
`rngValue` models the `ui64` returned by `NextUniformL`. -/
def learnPermutationId (learnPermutationCount rngValue : Nat) : Nat :=
  if 1 < learnPermutationCount then rngValue % (learnPermutationCount - 1) else 0

/-- `learnPermutationCount` as derived in `TDynamicBoosting::Fit`
(dynamic_boosting.h lines 229-230): `permutationCount - 1` when an
estimation permutation exists, with a fallback to 1. -/
def learnPermutationCountOf (permutationCount : Nat) : Nat :=
  if permutationCount - 1 ≠ 0 then permutationCount - 1 else 1

theorem nextOffsetAux_le_sum (line : Nat) :
    ∀ (sizes : List Nat) (acc : Nat), nextOffsetAux line sizes acc ≤ acc + sizes.sum := by
  intro sizes
  induction sizes with
  | nil => intro acc; simp [nextOffsetAux]
  | cons s rest ih =>
    intro acc
    simp only [nextOffsetAux, List.sum_cons]
    split
    · omega
    · have h := ih (acc + s)
      omega

theorem lt_nextOffsetAux (line : Nat) :
    ∀ (sizes : List Nat) (acc : Nat), line < acc + sizes.sum → line < nextOffsetAux line sizes acc := by
  intro sizes
  induction sizes with
  | nil =>
    intro acc h
    simp only [nextOffsetAux]
    simp only [List.sum_nil] at h
    omega
  | cons s rest ih =>
    intro acc h
    simp only [nextOffsetAux]
    split
    · assumption
    · exact ih (acc + s) (by simp only [List.sum_cons] at h; omega)

theorem nextOffsetAux_of_ge (line : Nat) :
    ∀ (sizes : List Nat) (acc : Nat), acc + sizes.sum ≤ line →
      nextOffsetAux line sizes acc = acc + sizes.sum := by
  intro sizes
  induction sizes with
  | nil => intro acc _; simp [nextOffsetAux]
  | cons s rest ih =>
    intro acc h
    simp only [List.sum_cons] at h ⊢
    simp only [nextOffsetAux]
    rw [if_neg (by omega)]
    rw [ih (acc + s) (by omega)]
    omega

theorem nextOffsetAux_mem_offsets (line : Nat) :
    ∀ (sizes : List Nat) (acc : Nat),
      ∃ k, k ≤ sizes.length ∧ nextOffsetAux line sizes acc = acc + (sizes.take k).sum := by
  intro sizes
  induction sizes with
  | nil => intro acc; exact ⟨0, by simp [nextOffsetAux]⟩
  | cons s rest ih =>
    intro acc
    simp only [nextOffsetAux]
    split
    · exact ⟨1, by simp⟩
    · obtain ⟨k, hk, he⟩ := ih (acc + s)
      refine ⟨k + 1, by simpa using hk, ?_⟩
      simp only [List.take_succ_cons, List.sum_cons]
      omega

theorem isGroupBoundary_iff (g : TSamplesGrouping) (b : Nat) :
    isGroupBoundary g b = true ↔ ∃ i, i ≤ GetQueryCount g ∧ GetQueryOffset g i = b := by
  simp only [isGroupBoundary, List.any_eq_true, List.mem_range, beq_iff_eq]
  constructor
  · rintro ⟨i, hi, he⟩; exact ⟨i, by omega, he⟩
  · rintro ⟨i, hi, he⟩; exact ⟨i, by omega, he⟩

theorem NextQueryOffsetForLine_le (g : TSamplesGrouping) (line : Nat) :
    NextQueryOffsetForLine g line ≤ sampleCountOf g := by
  simpa using nextOffsetAux_le_sum line g.GroupSizes 0

theorem lt_NextQueryOffsetForLine (g : TSamplesGrouping) (line : Nat)
    (h : line < sampleCountOf g) : line < NextQueryOffsetForLine g line := by
  exact lt_nextOffsetAux line g.GroupSizes 0 (by simpa [sampleCountOf] using h)

theorem NextQueryOffsetForLine_of_ge (g : TSamplesGrouping) (line : Nat)
    (h : sampleCountOf g ≤ line) : NextQueryOffsetForLine g line = sampleCountOf g := by
  simpa using nextOffsetAux_of_ge line g.GroupSizes 0 (by simpa [sampleCountOf] using h)

theorem isGroupBoundary_nextQueryOffset (g : TSamplesGrouping) (line : Nat) :
    isGroupBoundary g (NextQueryOffsetForLine g line) = true := by
  rw [isGroupBoundary_iff]
  obtain ⟨k, hk, he⟩ := nextOffsetAux_mem_offsets line g.GroupSizes 0
  exact ⟨k, hk, by simp [GetQueryOffset, NextQueryOffsetForLine, he]⟩

theorem isGroupBoundary_getQueryOffset (g : TSamplesGrouping) (i : Nat) :
    isGroupBoundary g (GetQueryOffset g i) = true := by
  rw [isGroupBoundary_iff]
  rcases le_or_lt i (GetQueryCount g) with h | h
  · exact ⟨i, h, rfl⟩
  · refine ⟨GetQueryCount g, le_refl _, ?_⟩
    unfold GetQueryOffset GetQueryCount at *
    rw [List.take_length, List.take_of_length_le (by omega)]

theorem isGroupBoundary_zero (g : TSamplesGrouping) : isGroupBoundary g 0 = true := by
  rw [isGroupBoundary_iff]
  exact ⟨0, by simp, by simp [GetQueryOffset]⟩

theorem isGroupBoundary_sampleCount (g : TSamplesGrouping) :
    isGroupBoundary g (sampleCountOf g) = true := by
  rw [isGroupBoundary_iff]
  exact ⟨GetQueryCount g, le_refl _, by simp [GetQueryOffset, GetQueryCount, sampleCountOf]⟩

theorem computedMinEstimationSize_le (devCount : Nat) (cfg : TBoostingOptions)
    (g : TSamplesGrouping) (sampleCount : Nat) :
    computedMinEstimationSize devCount cfg g sampleCount ≤ sampleCountOf g := by
  have h1 := NextQueryOffsetForLine_le g (MinEstimationSize cfg sampleCount)
  have h2 : GetQueryOffset g (min (16 * devCount) (GetQueryCount g / 2)) ≤ sampleCountOf g := by
    unfold GetQueryOffset sampleCountOf
    exact List.Sublist.sum_le_sum (List.take_sublist _ _) (fun _ _ => Nat.zero_le _)
  unfold computedMinEstimationSize
  split
  · exact max_le h1 h2
  · exact h1

theorem isGroupBoundary_computedMinEstimationSize (devCount : Nat) (cfg : TBoostingOptions)
    (g : TSamplesGrouping) (sampleCount : Nat) :
    isGroupBoundary g (computedMinEstimationSize devCount cfg g sampleCount) = true := by
  unfold computedMinEstimationSize
  split
  · rcases max_choice (NextQueryOffsetForLine g (MinEstimationSize cfg sampleCount))
      (GetQueryOffset g (min (16 * devCount) (GetQueryCount g / 2))) with h | h <;> rw [h]
    · exact isGroupBoundary_nextQueryOffset _ _
    · exact isGroupBoundary_getQueryOffset _ _
  · exact isGroupBoundary_nextQueryOffset _ _

/-- C7: `CreateFolds` fails with a configuration error exactly when the
growth rate is at most 1, or the computed minimum estimation size is zero,
or the grouping has fewer than `4 * devCount` groups; on failure no fold
sequence is returned (the three `CB_ENSURE` checks precede all fold
construction). -/
theorem createFolds_configError_iff (devCount : Nat) (cfg : TBoostingOptions)
    (g : TSamplesGrouping) (sampleCount : Nat) (growthRate : ℚ) :
    (∃ msg, CreateFolds devCount cfg g sampleCount growthRate = Except.error msg) ↔
      (growthRate ≤ 1 ∨ computedMinEstimationSize devCount cfg g sampleCount = 0 ∨
        GetQueryCount g < 4 * devCount) := by
  simp only [CreateFolds]
  split_ifs with h1 h2 h3 h4 <;> simp_all

/-- The value `MinEstimationSize` would have to return under C8's reading of
the fold-count cap, which uses the floor of the base-2 logarithm:
`floor(log2(ceil(docCount / MinFoldSize))) >= 18`. Stated from the claim's
words, for comparison with the source function. -/
def minEstimationSizeFloorLog (cfg : TBoostingOptions) (docCount : Nat) : Nat :=
  if docCount < 500 then 1
  else if Nat.log 2 (CeilDivide docCount cfg.MinFoldSize) ≥ 18 then
    CeilDivide docCount (2 ^ 18)
  else min cfg.MinFoldSize (docCount / 50)

/-- C8 counterexample: with `MinFoldSize = 100` and `docCount = 13107300`,
`ceil(docCount / MinFoldSize) = 131073` lies strictly between `2 ^ 17` and
`2 ^ 18`, so the ceiling logarithm in the source reaches the cap (result
`ceil(docCount / 2 ^ 18) = 51`) while the claim's floor-based condition does
not (predicting `min(MinFoldSize, docCount / 50) = 100`). -/
theorem minEstimationSize_floorLog_counterexample :
    MinEstimationSize ⟨EBoostingType.Ordered, 100, 32, 4⟩ 13107300 = 51 ∧
      minEstimationSizeFloorLog ⟨EBoostingType.Ordered, 100, 32, 4⟩ 13107300 = 100 := by
  constructor
  · have h1 : CeilDivide 13107300 100 = 131073 := by norm_num [CeilDivide]
    have h2 : IntLog2 131073 = 18 := by norm_num [IntLog2, Nat.clog]
    unfold MinEstimationSize
    rw [if_neg (by norm_num)]
    simp only [h1, h2]
    norm_num [CeilDivide]
  · have h1 : CeilDivide 13107300 100 = 131073 := by norm_num [CeilDivide]
    have h2 : Nat.log 2 131073 = 17 := by norm_num [Nat.log]
    unfold minEstimationSizeFloorLog
    rw [if_neg (by norm_num)]
    simp only [h1, h2]
    norm_num

/-- The amended C8 policy, stated from the amended claim's words: as C8 but
with the fold-count cap condition read with the ceiling logarithm, i.e. the
cap applies exactly when `ceil(docCount / MinFoldSize) > 2 ^ 17`. -/
def minEstimationSizeCeilLog (cfg : TBoostingOptions) (docCount : Nat) : Nat :=
  if docCount < 500 then 1
  else if 2 ^ 17 < CeilDivide docCount cfg.MinFoldSize then
    CeilDivide docCount (2 ^ 18)
  else min cfg.MinFoldSize (docCount / 50)

/-- C8 (amended): for every document count and positive configured
`MinFoldSize` in the overflow-free `ui32` range, `MinEstimationSize` returns
1 below 500 documents; `ceil(docCount / 2 ^ 18)` when
`ceil(log2(ceil(docCount / MinFoldSize))) >= 18`, i.e. when
`ceil(docCount / MinFoldSize) > 2 ^ 17` (capping the fold count at 18); and
`min(MinFoldSize, docCount / 50)` otherwise. -/
theorem minEstimationSize_eq_ceilLog (cfg : TBoostingOptions) (docCount : Nat)
    (_hmf : 0 < cfg.MinFoldSize) (_hdoc : docCount ≤ 2 ^ 31)
    (_hmf31 : cfg.MinFoldSize ≤ 2 ^ 31) :
    MinEstimationSize cfg docCount = minEstimationSizeCeilLog cfg docCount := by
  have hiff : IntLog2 (CeilDivide docCount cfg.MinFoldSize) ≥ 18 ↔
      2 ^ 17 < CeilDivide docCount cfg.MinFoldSize := by
    unfold IntLog2
    constructor
    · intro hge
      by_contra hlt
      have : Nat.clog 2 (CeilDivide docCount cfg.MinFoldSize) ≤ 17 :=
        (Nat.le_pow_iff_clog_le (by norm_num)).mp (by omega)
      omega
    · intro hlt
      by_contra hge
      have : CeilDivide docCount cfg.MinFoldSize ≤ 2 ^ 17 :=
        (Nat.le_pow_iff_clog_le (by norm_num)).mpr (by omega)
      omega
  unfold MinEstimationSize minEstimationSizeCeilLog
  split_ifs with h1 h2 h3 h4
  · rfl
  · rfl
  · exact absurd (hiff.mp h2) h3
  · exact absurd (hiff.mpr h4) h2
  · rfl

theorem minEstimationSize_eq_ceilLog_witness :
    0 < (100 : Nat) ∧
      MinEstimationSize ⟨EBoostingType.Ordered, 100, 32, 4⟩ 750 =
        minEstimationSizeCeilLog ⟨EBoostingType.Ordered, 100, 32, 4⟩ 750 :=
  ⟨by norm_num,
    minEstimationSize_eq_ceilLog ⟨EBoostingType.Ordered, 100, 32, 4⟩ 750
      (by norm_num) (by norm_num) (by norm_num)⟩

/-- C10 counterexample: with a configured permutation block size of `2 ^ 25`
and 50000 samples, `2 ^ 25 * 128 = 2 ^ 32` wraps to 0 in the `ui32` shrink
test, so the loop exits immediately and the returned block size times 128
(`2 ^ 32`) far exceeds the sample count, contrary to the claim. -/
theorem getPermutationBlockSize_overflow_counterexample :
    GetPermutationBlockSize ⟨EBoostingType.Plain, 100, 2 ^ 25, 4⟩ 50000 = 2 ^ 25 ∧
      ¬ GetPermutationBlockSize ⟨EBoostingType.Plain, 100, 2 ^ 25, 4⟩ 50000 * 128 ≤ 50000 := by
  have h25 : IntLog2 33554432 = 25 := by
    have h := Nat.clog_pow 2 25 (by norm_num)
    unfold IntLog2
    norm_num at h
    exact h
  have hshrink : shrinkBlockSize 50000 33554432 = 33554432 := by
    rw [shrinkBlockSize]
    rw [dif_neg (by norm_num)]
  have hval : GetPermutationBlockSize ⟨EBoostingType.Plain, 100, 2 ^ 25, 4⟩ 50000 = 2 ^ 25 := by
    unfold GetPermutationBlockSize
    rw [if_neg (by norm_num), if_pos (by norm_num)]
    show shrinkBlockSize 50000 (2 ^ IntLog2 (2 ^ 25)) = 2 ^ 25
    norm_num [h25, hshrink]
  exact ⟨hval, by rw [hval]; norm_num⟩

theorem shrinkBlockSize_of_pow (sampleCount : Nat) (hsc : 128 ≤ sampleCount) :
    ∀ k : Nat, 2 ^ k * 128 < 2 ^ 32 →
      ∃ j, j ≤ k ∧ shrinkBlockSize sampleCount (2 ^ k) = 2 ^ j ∧
        shrinkBlockSize sampleCount (2 ^ k) * 128 ≤ sampleCount := by
  intro k
  induction k with
  | zero =>
    intro _
    have hres : shrinkBlockSize sampleCount (2 ^ 0) = 2 ^ 0 := by
      rw [shrinkBlockSize]
      rw [dif_neg (by simp; omega)]
    exact ⟨0, le_refl _, hres, by rw [hres]; omega⟩
  | succ k ih =>
    intro hlt
    have hmod : 2 ^ (k + 1) * 128 % 2 ^ 32 = 2 ^ (k + 1) * 128 := Nat.mod_eq_of_lt hlt
    have hhalf : 2 ^ (k + 1) / 2 = 2 ^ k := by
      rw [pow_succ, Nat.mul_div_cancel _ (by norm_num)]
    rcases Classical.em (2 ^ (k + 1) * 128 % 2 ^ 32 > sampleCount) with hgt | hle
    · have hstep : shrinkBlockSize sampleCount (2 ^ (k + 1)) = shrinkBlockSize sampleCount (2 ^ k) := by
        rw [shrinkBlockSize, dif_pos hgt, hhalf]
      obtain ⟨j, hj, heq, hb⟩ := ih (by
        have : 2 ^ k * 128 ≤ 2 ^ (k + 1) * 128 := by
          have : 2 ^ k ≤ 2 ^ (k + 1) := Nat.pow_le_pow_right (by norm_num) (by omega)
          exact Nat.mul_le_mul_right _ this
        omega)
      exact ⟨j, by omega, hstep ▸ heq, hstep ▸ hb⟩
    · have hres : shrinkBlockSize sampleCount (2 ^ (k + 1)) = 2 ^ (k + 1) := by
        rw [shrinkBlockSize, dif_neg hle]
      refine ⟨k + 1, le_refl _, hres, ?_⟩
      rw [hres]
      rw [hmod] at hle
      omega

/-- C10 (amended): the permutation block size policy. Below 50000 samples
the result is 1 regardless of the configuration; at or above 50000 samples a
configured size of 0 or 1 is returned unchanged, and a configured size in
`(1, 2 ^ 24]` (so that the 32-bit product with 128 cannot wrap) yields a
power of two, at least 1, whose product with 128 does not exceed the sample
count. -/
theorem getPermutationBlockSize_policy (cfg : TBoostingOptions) (sampleCount : Nat) :
    (sampleCount < 50000 → GetPermutationBlockSize cfg sampleCount = 1) ∧
    (50000 ≤ sampleCount → cfg.PermutationBlockSize ≤ 1 →
      GetPermutationBlockSize cfg sampleCount = cfg.PermutationBlockSize) ∧
    (50000 ≤ sampleCount → 1 < cfg.PermutationBlockSize → cfg.PermutationBlockSize ≤ 2 ^ 24 →
      (∃ k, GetPermutationBlockSize cfg sampleCount = 2 ^ k) ∧
        1 ≤ GetPermutationBlockSize cfg sampleCount ∧
        GetPermutationBlockSize cfg sampleCount * 128 ≤ sampleCount) := by
  refine ⟨fun h => by unfold GetPermutationBlockSize; rw [if_pos h], ?_, ?_⟩
  · intro hsc hle
    unfold GetPermutationBlockSize
    rw [if_neg (by omega), if_neg (by omega)]
  · intro hsc hgt hle
    have hK : IntLog2 cfg.PermutationBlockSize ≤ 24 := by
      unfold IntLog2
      exact (Nat.le_pow_iff_clog_le (by norm_num)).mp hle
    have hbound : 2 ^ IntLog2 cfg.PermutationBlockSize * 128 < 2 ^ 32 := by
      have h1 : (2 : Nat) ^ IntLog2 cfg.PermutationBlockSize ≤ 2 ^ 24 :=
        Nat.pow_le_pow_right (by norm_num) hK
      omega
    obtain ⟨j, _, heq, hb⟩ :=
      shrinkBlockSize_of_pow sampleCount (by omega) (IntLog2 cfg.PermutationBlockSize) hbound
    have hval : GetPermutationBlockSize cfg sampleCount =
        shrinkBlockSize sampleCount (2 ^ IntLog2 cfg.PermutationBlockSize) := by
      unfold GetPermutationBlockSize
      rw [if_neg (by omega), if_pos hgt]
    rw [hval, heq]
    exact ⟨⟨j, rfl⟩, Nat.one_le_two_pow, heq ▸ hb⟩

theorem getPermutationBlockSize_policy_witness :
    (∃ k, GetPermutationBlockSize ⟨EBoostingType.Plain, 100, 6, 4⟩ 50000 = 2 ^ k) ∧
      1 ≤ GetPermutationBlockSize ⟨EBoostingType.Plain, 100, 6, 4⟩ 50000 ∧
      GetPermutationBlockSize ⟨EBoostingType.Plain, 100, 6, 4⟩ 50000 * 128 ≤ 50000 :=
  (getPermutationBlockSize_policy ⟨EBoostingType.Plain, 100, 6, 4⟩ 50000).2.2
    (by norm_num) (by norm_num) (by norm_num)

/-- C1 counterexample: with two learn permutations the draw in
`TDynamicBoosting::Fit` is `NextUniformL() % (2 - 1) = 0` for every RNG
value, so learn permutation index 1 (a non-estimation permutation) is never
a possible draw, contrary to the claim that every index in
`0..learnPermutationCount-1` can be drawn. -/
theorem learnPermutationId_not_full_range :
    ¬ ∃ rngValue, learnPermutationId 2 rngValue = 1 := by
  rintro ⟨r, hr⟩
  simp [learnPermutationId, Nat.mod_one] at hr

/-- C1 (amended): with more than one learn permutation, the structure-search
permutation is drawn as `rng % (learnPermutationCount - 1)`: it always lies
below `learnPermutationCount - 1`, every index below
`learnPermutationCount - 1` is realized (the draw is the identity on that
range and periodic with period `learnPermutationCount - 1`, so each index is
hit once per period — equiprobable as a function of the RNG value), and the
last learn permutation is never drawn; with a single learn permutation,
permutation 0 is used. -/
theorem learnPermutationId_draw (count rngValue : Nat) (h : 1 < count) :
    learnPermutationId count rngValue = rngValue % (count - 1) ∧
    learnPermutationId count rngValue < count - 1 ∧
    (rngValue < count - 1 → learnPermutationId count rngValue = rngValue) ∧
    learnPermutationId count (rngValue + (count - 1)) = learnPermutationId count rngValue ∧
    learnPermutationId 1 rngValue = 0 := by
  have hpos : 0 < count - 1 := by omega
  have h1 : learnPermutationId count rngValue = rngValue % (count - 1) := by
    unfold learnPermutationId
    rw [if_pos h]
  have h2 : learnPermutationId count (rngValue + (count - 1)) = rngValue % (count - 1) := by
    unfold learnPermutationId
    rw [if_pos h]
    exact Nat.add_mod_right _ _
  have h0 : learnPermutationId 1 rngValue = 0 := by
    unfold learnPermutationId
    rw [if_neg (lt_irrefl 1)]
  refine ⟨h1, h1 ▸ Nat.mod_lt _ hpos, fun hr => by rw [h1]; exact Nat.mod_eq_of_lt hr, ?_, h0⟩
  rw [h2, h1]

theorem learnPermutationId_draw_witness :
    1 < 3 ∧ (learnPermutationId 3 7 = 7 % (3 - 1) ∧ learnPermutationId 3 7 < 3 - 1 ∧
      (7 < 3 - 1 → learnPermutationId 3 7 = 7) ∧
      learnPermutationId 3 (7 + (3 - 1)) = learnPermutationId 3 7 ∧
      learnPermutationId 1 7 = 0) :=
  ⟨by norm_num, learnPermutationId_draw 3 7 (by norm_num)⟩

/-- C6: `CreateDataSet` builds exactly one permutation when the objects data
is `Ordered`, regardless of the configured permutation count, and the
configured count of permutations otherwise. -/
theorem createDataSetPermutationCount_by_order (cfg : TBoostingOptions) (order : EObjectsOrder) :
    (order = EObjectsOrder.Ordered → createDataSetPermutationCount cfg order = 1) ∧
    (order ≠ EObjectsOrder.Ordered →
      createDataSetPermutationCount cfg order = cfg.PermutationCount) := by
  unfold createDataSetPermutationCount
  exact ⟨fun h => by rw [if_pos h], fun h => by rw [if_neg h]⟩

theorem createDataSetPermutationCount_by_order_witness :
    createDataSetPermutationCount ⟨EBoostingType.Ordered, 100, 32, 4⟩ EObjectsOrder.Ordered = 1 ∧
      createDataSetPermutationCount ⟨EBoostingType.Ordered, 100, 32, 4⟩ EObjectsOrder.Undefined = 4 :=
  ⟨(createDataSetPermutationCount_by_order ⟨EBoostingType.Ordered, 100, 32, 4⟩ EObjectsOrder.Ordered).1 rfl,
    (createDataSetPermutationCount_by_order ⟨EBoostingType.Ordered, 100, 32, 4⟩ EObjectsOrder.Undefined).2
      (by decide)⟩

theorem le_truncMul (m : Nat) (q : ℚ) (hq : 1 ≤ q)
    (hnw : (m : ℚ) * q < 2 ^ 32) : m ≤ truncMul m q := by
  unfold truncMul
  have h1 : ((m : ℚ)) ≤ (m : ℚ) * q := le_mul_of_one_le_right (by positivity) hq
  have h2 : (m : ℤ) ≤ Int.floor ((m : ℚ) * q) := by
    rw [Int.le_floor]
    exact_mod_cast h1
  have h3 : Int.floor ((m : ℚ) * q) < (2 ^ 32 : ℤ) := by
    have := Int.floor_le ((m : ℚ) * q)
    have hcast : ((Int.floor ((m : ℚ) * q) : ℚ)) < (2 ^ 32 : ℚ) := lt_of_le_of_lt this hnw
    exact_mod_cast hcast
  have h4 : (Int.floor ((m : ℚ) * q)).toNat < 2 ^ 32 := by omega
  rw [Nat.mod_eq_of_lt h4]
  omega

theorem getLastD_mem_of_ne_nil {α : Type} (l : List α) (d : α) (h : l ≠ []) :
    l.getLastD d ∈ l := by
  cases l with
  | nil => exact absurd rfl h
  | cons a as =>
    rw [List.getLastD_cons]
    exact List.getLastD_mem_cons as a

theorem lastEvalRight_concat (folds : List TFold) (f : TFold) :
    lastEvalRight (folds ++ [f]) = f.QualityEvaluateSamples.Right := by
  unfold lastEvalRight
  rw [List.getLastD_concat]

/-- Adjacency claimed by C2 between consecutive ordered-mode folds: the next
fold estimates on exactly the range the previous fold evaluated up to, and
its evaluate range ends strictly further (its evaluate range also starts
where the previous one ended). -/
def foldsAdjacent (a b : TFold) : Prop :=
  b.EstimateSamples.Right = a.QualityEvaluateSamples.Right ∧
  b.QualityEvaluateSamples.Left = a.QualityEvaluateSamples.Right ∧
  a.QualityEvaluateSamples.Right < b.QualityEvaluateSamples.Right

/-- All four endpoints of a fold are group-offset boundaries. -/
def foldOnBoundaries (g : TSamplesGrouping) (f : TFold) : Prop :=
  isGroupBoundary g f.EstimateSamples.Left = true ∧
  isGroupBoundary g f.EstimateSamples.Right = true ∧
  isGroupBoundary g f.QualityEvaluateSamples.Left = true ∧
  isGroupBoundary g f.QualityEvaluateSamples.Right = true

/-- The fold-sequence shape claimed by C2 for ordered mode: estimate ranges
start at 0, consecutive folds chain (estimate-right = previous
evaluate-right, evaluate-rights strictly increasing), the last evaluate
range ends at the sample count, and every endpoint is a group boundary. -/
def orderedFoldsWellFormed (g : TSamplesGrouping) (sampleCount : Nat)
    (folds : List TFold) : Prop :=
  (∀ f ∈ folds, f.EstimateSamples.Left = 0) ∧
  List.Chain' foldsAdjacent folds ∧
  lastEvalRight folds = sampleCount ∧
  (∀ f ∈ folds, foldOnBoundaries g f)

/-- Invariant maintained by the `CreateFolds` loop: the fold list is
nonempty and well-formed except that its last evaluate range may still stop
short of the sample count. -/
def createFoldsInv (g : TSamplesGrouping) (sampleCount : Nat) (folds : List TFold) : Prop :=
  folds ≠ [] ∧
  (∀ f ∈ folds, f.EstimateSamples.Left = 0) ∧
  List.Chain' foldsAdjacent folds ∧
  (∀ f ∈ folds, foldOnBoundaries g f) ∧
  lastEvalRight folds ≤ sampleCount

theorem createFoldsLoop_wf (g : TSamplesGrouping) (growthRate : ℚ) (sampleCount : Nat)
    (hg : 1 < growthRate) (hsc : sampleCount = sampleCountOf g)
    (hnw : (sampleCount : ℚ) * growthRate < 2 ^ 32) :
    ∀ (fuel : Nat) (folds : List TFold), createFoldsInv g sampleCount folds →
      sampleCount ≤ lastEvalRight folds + fuel →
      createFoldsInv g sampleCount (createFoldsLoop g growthRate sampleCount fuel folds) ∧
        lastEvalRight (createFoldsLoop g growthRate sampleCount fuel folds) = sampleCount := by
  intro fuel
  induction fuel with
  | zero =>
    intro folds hinv hfuel
    refine ⟨hinv, ?_⟩
    have hle := hinv.2.2.2.2
    simp only [createFoldsLoop]
    omega
  | succ fuel ih =>
    intro folds hinv hfuel
    obtain ⟨hne, hzero, hchain, hbound, hle⟩ := hinv
    by_cases hlt : lastEvalRight folds < sampleCount
    · have hstep : createFoldsLoop g growthRate sampleCount (fuel + 1) folds =
          createFoldsLoop g growthRate sampleCount fuel
            (folds ++ [⟨⟨0, lastEvalRight folds⟩, ⟨lastEvalRight folds,
              NextQueryOffsetForLine g
                (min (truncMul (lastEvalRight folds) growthRate) sampleCount)⟩⟩]) := by
        simp only [createFoldsLoop]
        rw [if_pos hlt]
      set e := NextQueryOffsetForLine g
        (min (truncMul (lastEvalRight folds) growthRate) sampleCount) with he
      have hEle : e ≤ sampleCount := by
        rw [hsc]
        exact NextQueryOffsetForLine_le g _
      have hEgt : lastEvalRight folds < e := by
        rcases lt_or_ge (min (truncMul (lastEvalRight folds) growthRate) sampleCount)
          sampleCount with hc | hc
        · have hcast : ((lastEvalRight folds : ℚ)) ≤ (sampleCount : ℚ) := by
            exact_mod_cast le_of_lt hlt
          have hnw2 : ((lastEvalRight folds : ℚ)) * growthRate < 2 ^ 32 :=
            lt_of_le_of_lt (mul_le_mul_of_nonneg_right hcast (by linarith)) hnw
          have h1 : lastEvalRight folds ≤
              min (truncMul (lastEvalRight folds) growthRate) sampleCount :=
            le_min (le_truncMul _ _ (le_of_lt hg) hnw2) (le_of_lt hlt)
          have h2 := lt_NextQueryOffsetForLine g
            (min (truncMul (lastEvalRight folds) growthRate) sampleCount)
            (by rw [← hsc]; exact hc)
          omega
        · have hmin : min (truncMul (lastEvalRight folds) growthRate) sampleCount =
              sampleCount := le_antisymm (min_le_right _ _) hc
          have hE : e = sampleCount := by
            rw [he, hmin, NextQueryOffsetForLine_of_ge g sampleCount (le_of_eq hsc.symm), ← hsc]
          omega
      have hlastmem : folds.getLastD ⟨⟨0, 0⟩, ⟨0, 0⟩⟩ ∈ folds := getLastD_mem_of_ne_nil folds _ hne
      have hLboundary : isGroupBoundary g (lastEvalRight folds) = true :=
        (hbound _ hlastmem).2.2.2
      obtain ⟨lastf, hlastf⟩ : ∃ a, folds.getLast? = some a :=
        Option.isSome_iff_exists.mp (List.getLast?_isSome.mpr hne)
      have hlastfD : lastEvalRight folds = lastf.QualityEvaluateSamples.Right := by
        unfold lastEvalRight
        rw [List.getLastD_eq_getLast?, hlastf]
        rfl
      have hinvNew : createFoldsInv g sampleCount
          (folds ++ [⟨⟨0, lastEvalRight folds⟩, ⟨lastEvalRight folds, e⟩⟩]) := by
        refine ⟨by simp, ?_, ?_, ?_, ?_⟩
        · intro f hf
          rcases List.mem_append.mp hf with hf | hf
          · exact hzero f hf
          · simp only [List.mem_singleton] at hf
            subst hf
            rfl
        · rw [List.chain'_append]
          refine ⟨hchain, List.chain'_singleton _, ?_⟩
          intro x hx y hy
          rw [hlastf, Option.mem_some_iff] at hx
          simp only [List.head?_cons, Option.mem_some_iff] at hy
          subst hx
          subst hy
          exact ⟨hlastfD, hlastfD, hlastfD ▸ hEgt⟩
        · intro f hf
          rcases List.mem_append.mp hf with hf | hf
          · exact hbound f hf
          · simp only [List.mem_singleton] at hf
            subst hf
            exact ⟨isGroupBoundary_zero g, hLboundary, hLboundary,
              he ▸ isGroupBoundary_nextQueryOffset g _⟩
        · rw [lastEvalRight_concat]
          exact hEle
      rw [hstep]
      refine ih _ hinvNew ?_
      rw [lastEvalRight_concat]
      simp only []
      omega
    · have hstep : createFoldsLoop g growthRate sampleCount (fuel + 1) folds = folds := by
        simp only [createFoldsLoop]
        rw [if_neg hlt]
      rw [hstep]
      exact ⟨⟨hne, hzero, hchain, hbound, hle⟩, by omega⟩

/-- C2 (amended): for every valid input accepted by `CreateFolds` (with
`sampleCount` the total size of the grouping) such that
`sampleCount * growthRate < 2 ^ 32` — so the 32-bit cast of the grown fold
bound, applied before the cap at `sampleCount`, cannot wrap — the returned
fold sequence is exactly one whole-range fold in plain mode; in ordered mode
every estimate range starts at 0, consecutive folds chain (each
estimate-right equals the previous evaluate-right), evaluate-right ends
strictly increase, the last equals `sampleCount`, and every range boundary
is a group-offset boundary. Without the no-wrap bound the property fails:
see the wrap counterexample. -/
theorem createFolds_wellFormed (devCount sampleCount : Nat) (cfg : TBoostingOptions)
    (g : TSamplesGrouping) (growthRate : ℚ) (folds : List TFold)
    (hsc : sampleCount = sampleCountOf g)
    (hnw : (sampleCount : ℚ) * growthRate < 2 ^ 32)
    (hok : CreateFolds devCount cfg g sampleCount growthRate = Except.ok folds) :
    (cfg.BoostingType = EBoostingType.Plain →
      folds = [⟨⟨0, sampleCount⟩, ⟨0, sampleCount⟩⟩]) ∧
    (cfg.BoostingType ≠ EBoostingType.Plain →
      orderedFoldsWellFormed g sampleCount folds) := by
  unfold CreateFolds at hok
  split_ifs at hok with h1 h2 h3 h4
  · simp only [Except.ok.injEq] at hok
    exact ⟨fun _ => hok.symm, fun hneq => absurd h4 hneq⟩
  · simp only [Except.ok.injEq] at hok
    have hg : 1 < growthRate := not_le.mp h3
    have hinv0 : createFoldsInv g sampleCount
        [⟨⟨0, computedMinEstimationSize devCount cfg g sampleCount⟩,
          ⟨computedMinEstimationSize devCount cfg g sampleCount,
            NextQueryOffsetForLine g
              (min (truncMul (computedMinEstimationSize devCount cfg g sampleCount) growthRate)
                sampleCount)⟩⟩] := by
      refine ⟨by simp, ?_, List.chain'_singleton _, ?_, ?_⟩
      · intro f hf
        simp only [List.mem_singleton] at hf
        subst hf
        rfl
      · intro f hf
        simp only [List.mem_singleton] at hf
        subst hf
        exact ⟨isGroupBoundary_zero g,
          isGroupBoundary_computedMinEstimationSize devCount cfg g sampleCount,
          isGroupBoundary_computedMinEstimationSize devCount cfg g sampleCount,
          isGroupBoundary_nextQueryOffset g _⟩
      · rw [hsc]
        exact NextQueryOffsetForLine_le g _
    obtain ⟨hinvF, hlastF⟩ := createFoldsLoop_wf g growthRate sampleCount hg hsc hnw
      sampleCount _ hinv0 (by omega)
    rw [hok] at hinvF hlastF
    exact ⟨fun hp => absurd hp h4, fun _ => ⟨hinvF.2.1, hinvF.2.2.1, hlastF, hinvF.2.2.2.1⟩⟩

theorem createFolds_wellFormed_witness :
    (4 : Nat) = sampleCountOf ⟨[1, 1, 1, 1]⟩ ∧
      (((4 : Nat) : ℚ) * 2 < 2 ^ 32) ∧
      (((⟨EBoostingType.Plain, 100, 32, 4⟩ : TBoostingOptions).BoostingType =
          EBoostingType.Plain →
        ([⟨⟨0, 4⟩, ⟨0, 4⟩⟩] : List TFold) = [⟨⟨0, 4⟩, ⟨0, 4⟩⟩]) ∧
      ((⟨EBoostingType.Plain, 100, 32, 4⟩ : TBoostingOptions).BoostingType ≠
          EBoostingType.Plain →
        orderedFoldsWellFormed ⟨[1, 1, 1, 1]⟩ 4 [⟨⟨0, 4⟩, ⟨0, 4⟩⟩])) :=
  ⟨rfl, by norm_num, createFolds_wellFormed 1 4 ⟨EBoostingType.Plain, 100, 32, 4⟩
    ⟨[1, 1, 1, 1]⟩ 2 [⟨⟨0, 4⟩, ⟨0, 4⟩⟩] rfl (by norm_num) rfl⟩

/-- The estimator bookkeeping relevant to `PointDim`: the per-task leaf
slices. (`TaskHelpers`, `WriteDst` and `TaskSlices` are kept in lock-step by
`NextTask`, so one list models all three counts.) -/
structure TLeavesEstimatorState where
  TaskSlices : List TSlice
deriving DecidableEq, Repr

/-- Modelled from the spec: `AddEstimationTask`
(oblivious_tree_leaves_estimator.h lines 122-157) buckets the task's rows
into `2 ^ depth` leaves (`binCount = 1u << depth`, line 127) and registers
the task through `NextTask`, whose bookkeeping lives in
`oblivious_tree_leaves_estimator.cpp` outside `src/`: per the spec (§4.3,
`PointDim` = sum of per-task leaf counts) each new task occupies the slice
of `2 ^ depth` leaves immediately after the previously registered tasks. -/
def addEstimationTaskSlice (st : TLeavesEstimatorState) (depth : Nat) : TLeavesEstimatorState :=
  ⟨st.TaskSlices ++ [⟨(st.TaskSlices.getLastD ⟨0, 0⟩).Right,
    (st.TaskSlices.getLastD ⟨0, 0⟩).Right + 2 ^ depth⟩]⟩

/-- `TObliviousTreeLeavesEstimator::PointDim`
(oblivious_tree_leaves_estimator.h lines 93-96): `CB_ENSURE` that at least
one task was registered, then the right end of the last task slice. -/
def PointDim (st : TLeavesEstimatorState) : Except String Nat :=
  if st.TaskSlices.isEmpty then .error "Error: no estimation tasks registered"
  else .ok (st.TaskSlices.getLastD ⟨0, 0⟩).Right

/-- The estimator state after registering one task per entry of `depths`
(the oblivious trees of one boosting iteration share one structure, but the
model is stated for arbitrary depth sequences). -/
def estimatorAfterTasks (depths : List Nat) : TLeavesEstimatorState :=
  depths.foldl addEstimationTaskSlice ⟨[]⟩

theorem addEstimationTaskSlice_lastRight (st : TLeavesEstimatorState) (depth : Nat) :
    ((addEstimationTaskSlice st depth).TaskSlices.getLastD ⟨0, 0⟩).Right =
      (st.TaskSlices.getLastD ⟨0, 0⟩).Right + 2 ^ depth := by
  unfold addEstimationTaskSlice
  rw [List.getLastD_concat]

theorem foldl_addEstimationTaskSlice_lastRight :
    ∀ (depths : List Nat) (st : TLeavesEstimatorState),
      ((depths.foldl addEstimationTaskSlice st).TaskSlices.getLastD ⟨0, 0⟩).Right =
        (st.TaskSlices.getLastD ⟨0, 0⟩).Right + (depths.map (fun d => 2 ^ d)).sum := by
  intro depths
  induction depths with
  | nil => intro st; simp
  | cons d rest ih =>
    intro st
    simp only [List.foldl_cons, List.map_cons, List.sum_cons]
    rw [ih, addEstimationTaskSlice_lastRight]
    omega

theorem foldl_addEstimationTaskSlice_length :
    ∀ (depths : List Nat) (st : TLeavesEstimatorState),
      (depths.foldl addEstimationTaskSlice st).TaskSlices.length =
        st.TaskSlices.length + depths.length := by
  intro depths
  induction depths with
  | nil => intro st; simp
  | cons d rest ih =>
    intro st
    simp only [List.foldl_cons, List.length_cons]
    rw [ih]
    unfold addEstimationTaskSlice
    simp only [List.length_append, List.length_cons, List.length_nil]
    omega

/-- C9: `PointDim` fails with a usage error if and only if no estimation
task has been registered; with at least one task it returns the total leaf
count across all registered tasks — the sum of `2 ^ depth` over the tasks,
which is the right end of the last task slice. -/
theorem pointDim_characterization (depths : List Nat) :
    ((∃ msg, PointDim (estimatorAfterTasks depths) = Except.error msg) ↔ depths = []) ∧
    (depths ≠ [] →
      PointDim (estimatorAfterTasks depths) =
        Except.ok ((depths.map (fun d => 2 ^ d)).sum)) := by
  have hlen : (estimatorAfterTasks depths).TaskSlices.length = depths.length := by
    have h := foldl_addEstimationTaskSlice_length depths ⟨[]⟩
    simpa [estimatorAfterTasks] using h
  have hlast := foldl_addEstimationTaskSlice_lastRight depths ⟨[]⟩
  have hok : depths ≠ [] →
      PointDim (estimatorAfterTasks depths) =
        Except.ok ((depths.map (fun d => 2 ^ d)).sum) := by
    intro hne
    have hlen0 : depths.length ≠ 0 := fun h => hne (List.length_eq_zero.mp h)
    have hemp : (estimatorAfterTasks depths).TaskSlices.isEmpty = false := by
      have : (estimatorAfterTasks depths).TaskSlices ≠ [] := by
        intro h
        rw [h] at hlen
        exact hlen0 hlen.symm
      simp [List.isEmpty_iff, this]
    unfold PointDim
    rw [hemp]
    simp only [Bool.false_eq_true, if_false, Except.ok.injEq]
    simpa [estimatorAfterTasks] using hlast
  refine ⟨⟨?_, ?_⟩, hok⟩
  · rintro ⟨msg, hmsg⟩
    by_cases hne : depths = []
    · exact hne
    · rw [hok hne] at hmsg
      exact absurd hmsg (by simp)
  · intro h
    subst h
    exact ⟨_, rfl⟩

theorem pointDim_characterization_witness :
    ([2, 3] : List Nat) ≠ [] ∧
      PointDim (estimatorAfterTasks [2, 3]) = Except.ok (([2, 3].map (fun d => 2 ^ d)).sum) :=
  ⟨by simp, (pointDim_characterization [2, 3]).2 (by simp)⟩

/-- A leaf-estimation task submitted by one iteration of
`TDynamicBoosting::Fit` to the weak learner's estimator: one per
(learn permutation, fold), plus at most one for the estimation
permutation's full slice. -/
inductive EstimationTask where
  | foldTask (permutation foldId : Nat)
  | permTask
deriving DecidableEq, Repr

/-- The estimation tasks submitted in one iteration of
`TDynamicBoosting::Fit` (dynamic_boosting.h lines 350-385), in submission
order: for every learn permutation one task per fold (lines 355-369), and —
unless the boosting type is plain and the estimation permutation is 0
(line 371) — one task for the estimation permutation (lines 377-382). -/
def submittedEstimationTasks (plain : Bool) (estimationPermutation learnPermutationCount : Nat)
    (foldCount : Nat → Nat) : List EstimationTask :=
  ((List.range learnPermutationCount).flatMap fun p =>
    (List.range (foldCount p)).map fun f => EstimationTask.foldTask p f) ++
  (if plain && estimationPermutation == 0 then [] else [EstimationTask.permTask])

/-- `TFoldAndPermutationStorage<TWeakModel>` of one iteration
(dynamic_boosting.h lines 339-348). -/
structure TModelsStorage (M : Type) where
  FoldData : List (List M)
  Estimation : M

/-- The models after `estimator.Estimate(...)` (lines 350-385): each
submitted task's destination receives the estimator's result for that task
(the oracle `estimate`); with no estimation-permutation task submitted,
`models.Estimation` keeps the default model built from the weak structure
(lines 343-347). -/
def modelsAfterEstimate (M : Type) (plain : Bool)
    (estimationPermutation learnPermutationCount : Nat) (foldCount : Nat → Nat)
    (defaultModel : M) (estimate : EstimationTask → M) : TModelsStorage M where
  FoldData := (List.range learnPermutationCount).map fun p =>
    (List.range (foldCount p)).map fun f => estimate (EstimationTask.foldTask p f)
  Estimation := if plain && estimationPermutation == 0 then defaultModel
    else estimate EstimationTask.permTask

/-- `models.Foreach(... Rescale(step) ...)` (lines 387-389): every per-fold
model and the estimation model are rescaled by the learning rate. -/
def rescaleModels (M : Type) (rescale : M → M) (s : TModelsStorage M) : TModelsStorage M where
  FoldData := s.FoldData.map (List.map rescale)
  Estimation := rescale s.Estimation

/-- The fallback assignment (lines 392-394): in plain mode with estimation
permutation 0 the estimation model is replaced — after the rescale — by
`models.FoldData[0][0]`, fold 0's model of permutation 0. -/
def applyPlainFallback (M : Type) (plain : Bool) (estimationPermutation : Nat)
    (defaultModel : M) (s : TModelsStorage M) : TModelsStorage M :=
  if plain && estimationPermutation == 0 then
    ⟨s.FoldData, (s.FoldData.headD []).headD defaultModel⟩
  else s

/-- The weak model appended to the result at the end of the iteration
(`result->AddWeakModel(models.Estimation)`, line 440): `models.Estimation`
after estimation, rescaling and the plain-mode fallback. -/
def appendedWeakModel (M : Type) (plain : Bool)
    (estimationPermutation learnPermutationCount : Nat) (foldCount : Nat → Nat)
    (defaultModel : M) (estimate : EstimationTask → M) (rescale : M → M) : M :=
  (applyPlainFallback M plain estimationPermutation defaultModel
    (rescaleModels M rescale
      (modelsAfterEstimate M plain estimationPermutation learnPermutationCount foldCount
        defaultModel estimate))).Estimation

/-- C4: in plain boosting mode with estimation permutation 0 (no averaging
permutation), no estimation task for the estimation permutation is
submitted to the leaves estimator, and the estimation weak model appended
to the result equals fold 0's weak model of permutation 0 after the rescale
by the learning rate. -/
theorem plainFallback_appendedModel (M : Type) (learnPermutationCount : Nat)
    (foldCount : Nat → Nat) (defaultModel : M) (estimate : EstimationTask → M)
    (rescale : M → M) (hp : 1 ≤ learnPermutationCount) (hf : 1 ≤ foldCount 0) :
    EstimationTask.permTask ∉
      submittedEstimationTasks true 0 learnPermutationCount foldCount ∧
    appendedWeakModel M true 0 learnPermutationCount foldCount defaultModel
        estimate rescale =
      rescale (estimate (EstimationTask.foldTask 0 0)) := by
  constructor
  · unfold submittedEstimationTasks
    simp
  · unfold appendedWeakModel applyPlainFallback rescaleModels modelsAfterEstimate
    obtain ⟨k, rfl⟩ : ∃ k, learnPermutationCount = k + 1 :=
      ⟨learnPermutationCount - 1, by omega⟩
    obtain ⟨j, hj⟩ : ∃ j, foldCount 0 = j + 1 := ⟨foldCount 0 - 1, by omega⟩
    simp [List.range_succ_eq_map, hj]

theorem plainFallback_appendedModel_witness :
    1 ≤ 1 ∧
      (EstimationTask.permTask ∉
        submittedEstimationTasks true 0 1 (fun _ => 1) ∧
      appendedWeakModel Nat true 0 1 (fun _ => 1) 0
          (fun t => match t with
            | EstimationTask.foldTask p f => 100 + 10 * p + f
            | EstimationTask.permTask => 7)
          (fun m => m * 2) =
        (fun m => m * 2) ((fun t => match t with
            | EstimationTask.foldTask p f => 100 + 10 * p + f
            | EstimationTask.permTask => 7) (EstimationTask.foldTask 0 0))) :=
  ⟨le_refl 1,
    plainFallback_appendedModel Nat 1 (fun _ => 1) 0
      (fun t => match t with
        | EstimationTask.foldTask p f => 100 + 10 * p + f
        | EstimationTask.permTask => 7)
      (fun m => m * 2) (le_refl 1) (le_refl 1)⟩

/-- A device cursor buffer: the objects slice its mapping declares, plus
abstract contents. `addModelValue` writes values into the buffer but never
changes its mapping, hence never its objects slice. -/
structure TCursorBuffer (α : Type) where
  objectsSlice : TSlice
  payload : α

/-- The per-fold cursors created by `TDynamicBoosting::CreateState`
(dynamic_boosting.h lines 557-564): for each learn permutation one cursor
per fold, allocated with a mirror mapping of size the fold's
evaluate-right — objects slice `(0, QualityEvaluateSamples.Right)` — and
initialized with the permuted baseline. -/
def createStateFoldCursors (α : Type) (baseline : α)
    (permutationFolds : List (List TFold)) : List (List (TCursorBuffer α)) :=
  permutationFolds.map fun folds =>
    folds.map fun fold => ⟨⟨0, fold.QualityEvaluateSamples.Right⟩, baseline⟩

/-- The `CB_ENSURE` of `TDynamicBoosting::Fit` (lines 425-428), evaluated
for every (permutation, fold) pair before the per-fold cursor update: the
cursor's objects slice must equal `(0, fold.QualityEvaluateSamples.Right)`. -/
def foldCursorCheck (α : Type) (permutationFolds : List (List TFold))
    (cursors : List (List (TCursorBuffer α))) : Bool :=
  (permutationFolds.zip cursors).all fun pc =>
    (pc.1.zip pc.2).all fun fc =>
      fc.2.objectsSlice == ⟨0, fc.1.QualityEvaluateSamples.Right⟩

/-- One permutation row of `addModelValue.AddTask` updates (lines 425-434):
each fold cursor receives the fold model's contribution (modelled by `upd`
as a function of the fold index and the old contents); the mapping — hence
the objects slice — is untouched by the write. -/
def updateCursorRow (α : Type) (upd : Nat → α → α) :
    Nat → List (TCursorBuffer α) → List (TCursorBuffer α)
  | _, [] => []
  | f, c :: rest => ⟨c.objectsSlice, upd f c.payload⟩ :: updateCursorRow α upd (f + 1) rest

/-- The per-iteration cursor update over all (permutation, fold) pairs
(the two nested loops of lines 419-435). -/
def updateFoldCursors (α : Type) (upd : Nat → Nat → α → α) :
    Nat → List (List (TCursorBuffer α)) → List (List (TCursorBuffer α))
  | _, [] => []
  | p, row :: rest => updateCursorRow α (upd p) 0 row :: updateFoldCursors α upd (p + 1) rest

/-- The fold cursors after `n` boosting iterations: start from the cursors
`CreateState` built and apply each iteration's model-value contributions;
`updates i p f` is the contribution of iteration `i` to the cursor of
permutation `p`, fold `f`. -/
def cursorsAfterIterations (α : Type) (baseline : α)
    (permutationFolds : List (List TFold)) (updates : Nat → Nat → Nat → α → α) :
    Nat → List (List (TCursorBuffer α))
  | 0 => createStateFoldCursors α baseline permutationFolds
  | n + 1 => updateFoldCursors α (updates n) 0
      (cursorsAfterIterations α baseline permutationFolds updates n)

theorem foldCursorCheck_cons (α : Type) (fs : List TFold) (rest : List (List TFold))
    (row : List (TCursorBuffer α)) (rows : List (List (TCursorBuffer α))) :
    foldCursorCheck α (fs :: rest) (row :: rows) =
      (((fs.zip row).all fun fc =>
        fc.2.objectsSlice == ⟨0, fc.1.QualityEvaluateSamples.Right⟩) &&
        foldCursorCheck α rest rows) := by
  simp [foldCursorCheck]

theorem zip_all_updateCursorRow (α : Type) (upd : Nat → α → α) :
    ∀ (folds : List TFold) (row : List (TCursorBuffer α)) (f : Nat),
      ((folds.zip (updateCursorRow α upd f row)).all fun fc =>
        fc.2.objectsSlice == ⟨0, fc.1.QualityEvaluateSamples.Right⟩) =
      ((folds.zip row).all fun fc =>
        fc.2.objectsSlice == ⟨0, fc.1.QualityEvaluateSamples.Right⟩) := by
  intro folds
  induction folds with
  | nil => intro row f; simp
  | cons a as ih =>
    intro row f
    cases row with
    | nil => simp [updateCursorRow]
    | cons c cs =>
      simp only [updateCursorRow, List.zip_cons_cons, List.all_cons]
      rw [ih]

theorem foldCursorCheck_update (α : Type) (upd : Nat → Nat → α → α) :
    ∀ (permutationFolds : List (List TFold)) (cursors : List (List (TCursorBuffer α)))
      (p : Nat),
      foldCursorCheck α permutationFolds (updateFoldCursors α upd p cursors) =
        foldCursorCheck α permutationFolds cursors := by
  intro permutationFolds
  induction permutationFolds with
  | nil => intro cursors p; rfl
  | cons fs rest ih =>
    intro cursors p
    cases cursors with
    | nil => rfl
    | cons row rows =>
      show foldCursorCheck α (fs :: rest)
        (updateCursorRow α (upd p) 0 row :: updateFoldCursors α upd (p + 1) rows) = _
      rw [foldCursorCheck_cons, foldCursorCheck_cons, zip_all_updateCursorRow, ih rows (p + 1)]

theorem foldCursorCheck_createState (α : Type) (baseline : α)
    (permutationFolds : List (List TFold)) :
    foldCursorCheck α permutationFolds
      (createStateFoldCursors α baseline permutationFolds) = true := by
  induction permutationFolds with
  | nil => rfl
  | cons fs rest ih =>
    simp only [createStateFoldCursors, List.map_cons]
    rw [foldCursorCheck_cons]
    have hinner : ((fs.zip (fs.map fun fold =>
        (⟨⟨0, fold.QualityEvaluateSamples.Right⟩, baseline⟩ : TCursorBuffer α))).all
        fun fc => fc.2.objectsSlice == ⟨0, fc.1.QualityEvaluateSamples.Right⟩) = true := by
      induction fs with
      | nil => rfl
      | cons f fsr ihf =>
        simp only [List.map_cons, List.zip_cons_cons, List.all_cons, ihf]
        simp
    rw [hinner]
    have hrest : foldCursorCheck α rest (rest.map fun folds =>
        folds.map fun fold =>
          (⟨⟨0, fold.QualityEvaluateSamples.Right⟩, baseline⟩ : TCursorBuffer α)) = true := by
      simpa [createStateFoldCursors] using ih
    rw [hrest]
    rfl

/-- C5: for cursors initialized by `CreateState` (each fold cursor's
mapping sized to its fold's evaluate-right), the objects-slice invariant
checked before every per-fold cursor update holds after any number of
iterations with any model-value contributions: the `CB_ENSURE` comparison
with `(0, fold.QualityEvaluateSamples.Right)` always succeeds, so the
assertion's error branch is unreachable. -/
theorem foldCursorCheck_never_fails (α : Type) (baseline : α)
    (permutationFolds : List (List TFold)) (updates : Nat → Nat → Nat → α → α) (n : Nat) :
    foldCursorCheck α permutationFolds
      (cursorsAfterIterations α baseline permutationFolds updates n) = true := by
  induction n with
  | zero => exact foldCursorCheck_createState α baseline permutationFolds
  | succ n ih =>
    show foldCursorCheck α permutationFolds (updateFoldCursors α (updates n) 0
      (cursorsAfterIterations α baseline permutationFolds updates n)) = true
    rw [foldCursorCheck_update]
    exact ih

/-- The boosting state mutated by `TDynamicBoosting::Fit` and captured by
snapshots: the additive result model (ordered list of weak models), the
per-fold cursors, the estimation cursor, the test cursor and, when best-test
tracking is requested, the best-test cursor. Weak models and cursor contents
are abstract types. -/
structure TFitState (W C : Type) where
  Result : List W
  FoldCursors : List (List C)
  EstimationCursor : C
  TestCursor : C
  BestTestCursor : Option C

/-- Modelled from the spec: `TDynamicBoostingProgress` and `MakeProgress`
(dynamic_boosting_progress.h, outside `src/`) capture {result model, all
fold and estimation cursors, test cursor} for serialization (spec §3, §6),
and `snapshotSaver` (dynamic_boosting.h lines 241-247) appends the best-test
cursor when it is tracked; `::Save` and `::Load` round-trip the blob exactly. -/
structure TDynamicBoostingProgress (W C : Type) where
  Result : List W
  FoldCursors : List (List C)
  EstimationCursor : C
  TestCursor : C
  BestTestCursor : Option C

/-- The snapshot written by `snapshotSaver` from the current fit state. -/
def makeSnapshot (W C : Type) (s : TFitState W C) : TDynamicBoostingProgress W C :=
  ⟨s.Result, s.FoldCursors, s.EstimationCursor, s.TestCursor, s.BestTestCursor⟩

/-- Modelled from the spec: `MaybeRestoreFromSnapshot` in
`TDynamicBoosting::Run` (dynamic_boosting.h lines 593-604) loads the
progress and `WriteProgressToGpu` writes the result model and all cursors
back into the freshly created state; the best-test cursor is loaded only
when the fresh state tracks one. -/
def restoreSnapshot (W C : Type) (p : TDynamicBoostingProgress W C)
    (fresh : TFitState W C) : TFitState W C :=
  ⟨p.Result, p.FoldCursors, p.EstimationCursor, p.TestCursor,
    if fresh.BestTestCursor.isSome then p.BestTestCursor else fresh.BestTestCursor⟩

/-- One iteration of the `Fit` loop (dynamic_boosting.h lines 249-460),
abstracting the weak learner and the device work: a weak model is produced
from the current state (structure search, leaf estimation, rescale,
fallback — `weakOf`), every cursor receives its contribution (`foldStep`,
`estStep`, `testStep`), the best-test cursor may be refreshed (`bestStep`),
and the model is appended to the result — `result->AddWeakModel` at line
440 is the only mutation of the result model, and it appends exactly one
weak model per iteration. -/
def fitIteration (W C : Type) (weakOf : TFitState W C → W)
    (foldStep : TFitState W C → W → List (List C)) (estStep : TFitState W C → W → C)
    (testStep : TFitState W C → W → C) (bestStep : TFitState W C → W → Option C)
    (s : TFitState W C) : TFitState W C :=
  ⟨s.Result ++ [weakOf s], foldStep s (weakOf s), estStep s (weakOf s),
    testStep s (weakOf s), bestStep s (weakOf s)⟩

/-- `n` iterations of the `Fit` loop. -/
def fitRun (W C : Type) (weakOf : TFitState W C → W)
    (foldStep : TFitState W C → W → List (List C)) (estStep : TFitState W C → W → C)
    (testStep : TFitState W C → W → C) (bestStep : TFitState W C → W → Option C) :
    Nat → TFitState W C → TFitState W C
  | 0, s => s
  | n + 1, s => fitRun W C weakOf foldStep estStep testStep bestStep n
      (fitIteration W C weakOf foldStep estStep testStep bestStep s)

theorem fitRun_result_length (W C : Type) (weakOf : TFitState W C → W)
    (foldStep : TFitState W C → W → List (List C)) (estStep : TFitState W C → W → C)
    (testStep : TFitState W C → W → C) (bestStep : TFitState W C → W → Option C) :
    ∀ (n : Nat) (s : TFitState W C),
      (fitRun W C weakOf foldStep estStep testStep bestStep n s).Result.length =
        s.Result.length + n := by
  intro n
  induction n with
  | zero => intro s; rfl
  | succ n ih =>
    intro s
    show (fitRun W C weakOf foldStep estStep testStep bestStep n
      (fitIteration W C weakOf foldStep estStep testStep bestStep s)).Result.length = _
    rw [ih]
    simp [fitIteration]
    omega

theorem fitRun_result_take (W C : Type) (weakOf : TFitState W C → W)
    (foldStep : TFitState W C → W → List (List C)) (estStep : TFitState W C → W → C)
    (testStep : TFitState W C → W → C) (bestStep : TFitState W C → W → Option C) :
    ∀ (n : Nat) (s : TFitState W C) (j : Nat), j ≤ s.Result.length →
      (fitRun W C weakOf foldStep estStep testStep bestStep n s).Result.take j =
        s.Result.take j := by
  intro n
  induction n with
  | zero => intro s j _; rfl
  | succ n ih =>
    intro s j hj
    show (fitRun W C weakOf foldStep estStep testStep bestStep n
      (fitIteration W C weakOf foldStep estStep testStep bestStep s)).Result.take j = _
    rw [ih _ j (by simp [fitIteration]; omega)]
    show (s.Result ++ [weakOf s]).take j = s.Result.take j
    exact List.take_append_of_le_length hj

/-- C3: interrupt a run after `k` completed iterations with a snapshot
saved; restoring that snapshot into a freshly created state and continuing
training — for any number of further iterations and any continuation
behaviour (the continuation's weak models need not repeat the original RNG
stream) — yields a result model whose first `k` weak models equal the
result model of the uninterrupted run observed at iteration `k`. -/
theorem snapshot_resume_first_k (W C : Type) (weakOf : TFitState W C → W)
    (foldStep : TFitState W C → W → List (List C)) (estStep : TFitState W C → W → C)
    (testStep : TFitState W C → W → C) (bestStep : TFitState W C → W → Option C)
    (weakOf2 : TFitState W C → W) (foldStep2 : TFitState W C → W → List (List C))
    (estStep2 : TFitState W C → W → C) (testStep2 : TFitState W C → W → C)
    (bestStep2 : TFitState W C → W → Option C)
    (s0 fresh : TFitState W C) (h0 : s0.Result = []) (k m : Nat) :
    (fitRun W C weakOf2 foldStep2 estStep2 testStep2 bestStep2 m
        (restoreSnapshot W C
          (makeSnapshot W C (fitRun W C weakOf foldStep estStep testStep bestStep k s0))
          fresh)).Result.take k =
      (fitRun W C weakOf foldStep estStep testStep bestStep k s0).Result := by
  have hlen : (fitRun W C weakOf foldStep estStep testStep bestStep k s0).Result.length = k := by
    rw [fitRun_result_length, h0]
    simp
  have hres : (restoreSnapshot W C
      (makeSnapshot W C (fitRun W C weakOf foldStep estStep testStep bestStep k s0))
      fresh).Result = (fitRun W C weakOf foldStep estStep testStep bestStep k s0).Result := rfl
  rw [fitRun_result_take W C weakOf2 foldStep2 estStep2 testStep2 bestStep2 m _ k
    (by rw [hres, hlen])]
  rw [hres]
  exact List.take_of_length_le (le_of_eq hlen)

theorem snapshot_resume_first_k_witness :
    (⟨[], [], 0, 0, none⟩ : TFitState Nat Nat).Result = [] ∧
      (fitRun Nat Nat (fun _ => 99) (fun _ _ => []) (fun _ _ => 0) (fun _ _ => 0)
          (fun _ _ => none) 3
          (restoreSnapshot Nat Nat
            (makeSnapshot Nat Nat
              (fitRun Nat Nat (fun s => s.Result.length) (fun _ _ => []) (fun _ _ => 0)
                (fun _ _ => 0) (fun _ _ => none) 2 ⟨[], [], 0, 0, none⟩))
            ⟨[], [], 5, 5, none⟩)).Result.take 2 =
        (fitRun Nat Nat (fun s => s.Result.length) (fun _ _ => []) (fun _ _ => 0)
          (fun _ _ => 0) (fun _ _ => none) 2 ⟨[], [], 0, 0, none⟩).Result :=
  ⟨rfl,
    snapshot_resume_first_k Nat Nat (fun s => s.Result.length) (fun _ _ => []) (fun _ _ => 0)
      (fun _ _ => 0) (fun _ _ => none) (fun _ => 99) (fun _ _ => []) (fun _ _ => 0)
      (fun _ _ => 0) (fun _ _ => none) ⟨[], [], 0, 0, none⟩ ⟨[], [], 5, 5, none⟩ rfl 2 3⟩

theorem createFoldsLoop_step (g : TSamplesGrouping) (growthRate : ℚ)
    (sampleCount fuel : Nat) (folds : List TFold)
    (hlt : lastEvalRight folds < sampleCount) :
    createFoldsLoop g growthRate sampleCount (fuel + 1) folds =
      createFoldsLoop g growthRate sampleCount fuel (folds ++
        [⟨⟨0, lastEvalRight folds⟩, ⟨lastEvalRight folds,
          NextQueryOffsetForLine g
            (min (truncMul (lastEvalRight folds) growthRate) sampleCount)⟩⟩]) := by
  simp only [createFoldsLoop]
  rw [if_pos hlt]

theorem createFoldsLoop_exit (g : TSamplesGrouping) (growthRate : ℚ)
    (sampleCount fuel : Nat) (folds : List TFold)
    (hge : ¬ lastEvalRight folds < sampleCount) :
    createFoldsLoop g growthRate sampleCount (fuel + 1) folds = folds := by
  simp only [createFoldsLoop]
  rw [if_neg hge]

/-- C2 counterexample: a valid input on which the 32-bit cast of the grown
fold bound wraps and the returned evaluate-right ends are not strictly
increasing. With groups of sizes `[5, 3, 4, 488]` (500 samples, boundaries
0, 5, 8, 12, 500), `MinFoldSize = 10` and
`growthRate = (2 ^ 32 + 1) / 2 = 2147483648.5` (an exactly representable
double), all three validation checks pass, the seed estimation size is 12,
and the products `12 * growthRate`, `8 * growthRate` wrap modulo `2 ^ 32` to
6 and 4 before the `Min` against 500, yielding folds with evaluate ends
8, 5, 500 — the second is below the first, refuting the claimed strict
increase (the well-formedness predicate fails on the returned sequence). -/
theorem createFolds_wrap_counterexample :
    (500 : Nat) = sampleCountOf ⟨[5, 3, 4, 488]⟩ ∧
    CreateFolds 1 ⟨EBoostingType.Ordered, 10, 32, 4⟩ ⟨[5, 3, 4, 488]⟩ 500
        ((2 ^ 32 + 1) / 2 : ℚ) =
      Except.ok [⟨⟨0, 12⟩, ⟨12, 8⟩⟩, ⟨⟨0, 8⟩, ⟨8, 5⟩⟩, ⟨⟨0, 5⟩, ⟨5, 500⟩⟩] ∧
    ¬ orderedFoldsWellFormed ⟨[5, 3, 4, 488]⟩ 500
        [⟨⟨0, 12⟩, ⟨12, 8⟩⟩, ⟨⟨0, 8⟩, ⟨8, 5⟩⟩, ⟨⟨0, 5⟩, ⟨5, 500⟩⟩] := by
  have hmfs : MinEstimationSize ⟨EBoostingType.Ordered, 10, 32, 4⟩ 500 = 10 := by
    unfold MinEstimationSize
    norm_num [IntLog2, CeilDivide, Nat.clog]
  have hmin : computedMinEstimationSize 1 ⟨EBoostingType.Ordered, 10, 32, 4⟩
      ⟨[5, 3, 4, 488]⟩ 500 = 12 := by
    unfold computedMinEstimationSize
    rw [hmfs]
    decide
  have ht12 : truncMul 12 ((2 ^ 32 + 1) / 2 : ℚ) = 6 := by
    unfold truncMul
    norm_num
    decide
  have ht8 : truncMul 8 ((2 ^ 32 + 1) / 2 : ℚ) = 4 := by
    unfold truncMul
    norm_num
    decide
  have ht5 : truncMul 5 ((2 ^ 32 + 1) / 2 : ℚ) = 2147483650 := by
    unfold truncMul
    norm_num
    decide
  have hl1 : createFoldsLoop ⟨[5, 3, 4, 488]⟩ ((2 ^ 32 + 1) / 2 : ℚ) 500 500
      [⟨⟨0, 12⟩, ⟨12, 8⟩⟩] =
      createFoldsLoop ⟨[5, 3, 4, 488]⟩ ((2 ^ 32 + 1) / 2 : ℚ) 500 499
        [⟨⟨0, 12⟩, ⟨12, 8⟩⟩, ⟨⟨0, 8⟩, ⟨8, 5⟩⟩] := by
    have h := createFoldsLoop_step ⟨[5, 3, 4, 488]⟩ ((2 ^ 32 + 1) / 2 : ℚ) 500 499
      [⟨⟨0, 12⟩, ⟨12, 8⟩⟩] (by decide)
    rw [show lastEvalRight [(⟨⟨0, 12⟩, ⟨12, 8⟩⟩ : TFold)] = 8 from rfl, ht8] at h
    exact h
  have hl2 : createFoldsLoop ⟨[5, 3, 4, 488]⟩ ((2 ^ 32 + 1) / 2 : ℚ) 500 499
      [⟨⟨0, 12⟩, ⟨12, 8⟩⟩, ⟨⟨0, 8⟩, ⟨8, 5⟩⟩] =
      createFoldsLoop ⟨[5, 3, 4, 488]⟩ ((2 ^ 32 + 1) / 2 : ℚ) 500 498
        [⟨⟨0, 12⟩, ⟨12, 8⟩⟩, ⟨⟨0, 8⟩, ⟨8, 5⟩⟩, ⟨⟨0, 5⟩, ⟨5, 500⟩⟩] := by
    have h := createFoldsLoop_step ⟨[5, 3, 4, 488]⟩ ((2 ^ 32 + 1) / 2 : ℚ) 500 498
      [⟨⟨0, 12⟩, ⟨12, 8⟩⟩, ⟨⟨0, 8⟩, ⟨8, 5⟩⟩] (by decide)
    rw [show lastEvalRight [(⟨⟨0, 12⟩, ⟨12, 8⟩⟩ : TFold), ⟨⟨0, 8⟩, ⟨8, 5⟩⟩] = 5 from rfl,
      ht5] at h
    exact h
  have hl3 : createFoldsLoop ⟨[5, 3, 4, 488]⟩ ((2 ^ 32 + 1) / 2 : ℚ) 500 498
      [⟨⟨0, 12⟩, ⟨12, 8⟩⟩, ⟨⟨0, 8⟩, ⟨8, 5⟩⟩, ⟨⟨0, 5⟩, ⟨5, 500⟩⟩] =
      [⟨⟨0, 12⟩, ⟨12, 8⟩⟩, ⟨⟨0, 8⟩, ⟨8, 5⟩⟩, ⟨⟨0, 5⟩, ⟨5, 500⟩⟩] :=
    createFoldsLoop_exit _ _ _ 497 _ (by decide)
  refine ⟨rfl, ?_, ?_⟩
  · unfold CreateFolds
    rw [hmin, ht12]
    rw [if_neg (by decide), if_neg (by decide), if_neg (by norm_num),
      if_neg (by decide)]
    rw [show min (6 : Nat) 500 = 6 from rfl,
      show NextQueryOffsetForLine ⟨[5, 3, 4, 488]⟩ 6 = 8 from rfl]
    rw [hl1, hl2, hl3]
  · intro h
    have hchain := h.2.1
    rw [List.chain'_cons] at hchain
    obtain ⟨⟨-, -, h85⟩, -⟩ := hchain
    exact absurd h85 (by norm_num)
